import Mathlib

/-!
Verification of the descriptive-statistics and report-generation pipeline of a
small data-analysis repository (src/utils.py and src/example_analysis.py).

The in-memory table (a pandas DataFrame in the source) is embedded as an
ordered list of named columns; a column is either numeric (rational values,
with missing entries as none) or textual.  Each pipeline stage is embedded as
a pure function over this model, translated from the source line by line;
floating-point values are modelled as rationals, and the one genuinely real
quantity (a standard deviation, a square root) lives in the reals.
-/

/-- A column's data: numeric values or text labels, either possibly missing
(NaN / None in the source). -/
inductive ColData where
  | nums (vals : List (Option ℚ))
  | strs (vals : List (Option String))
deriving DecidableEq

/-- An ordered sequence of named columns (the DataFrame model). -/
structure Table where
  cols : List (String × ColData)
deriving DecidableEq

namespace ColData

/-- Number of entries of a column (present or missing). -/
def size : ColData → ℕ
  | nums vs => vs.length
  | strs vs => vs.length

/-- df.isnull().sum() for one column: how many entries are missing. -/
def missingCount : ColData → ℕ
  | nums vs => vs.countP (fun v => v.isNone)
  | strs vs => vs.countP (fun v => v.isNone)

/-- Whether select_dtypes(include=[np.number]) keeps the column. -/
def isNumeric : ColData → Bool
  | nums _ => true
  | strs _ => false

/-- The numeric entries of a column (empty for a text column). -/
def numVals : ColData → List (Option ℚ)
  | nums vs => vs
  | strs _ => []

end ColData

/-- len(df): the row count, read off the first column as pandas does from its
shared index. -/
def Table.nRows (T : Table) : ℕ :=
  ((T.cols.head?.map (fun c => c.2.size)).getD 0)

/-- df.select_dtypes(include=[np.number]): the numeric columns, in table
order. -/
def numericCols (T : Table) : List (String × ColData) :=
  T.cols.filter (fun c => c.2.isNumeric)

/-- The numeric column names, in table order. -/
def numericNames (T : Table) : List String :=
  (numericCols T).map (fun c => c.1)

/-- The non-missing values of a numeric value list. -/
def somes (l : List (Option ℚ)) : List ℚ :=
  l.filterMap id

/-- np.mean / pandas mean over already-extracted values (0 for an empty
list, from the 0-denominator convention of rational division). -/
def meanQ (l : List ℚ) : ℚ :=
  l.sum / l.length

/-- Rounding a rational to k decimal places (the {:.1f} / display-precision
formatting of the source; Lean's round is half-up where Python format ties
to even, which never differs away from exact half-way values). -/
def roundTo (k : ℕ) (q : ℚ) : ℚ :=
  (round (q * 10 ^ k) : ℚ) / 10 ^ k

/-! ## Data loader: load_data (src/utils.py lines 18-36)

The path is a character list and the options map (**kwargs) an association
list forwarded untouched; the format-specific parsers are external
collaborators, so the loader's result just records which one was chosen and
with which options. -/

/-- The three format-specific parsers the loader can dispatch to. -/
inductive Backend where
  | csv
  | excel
  | json
deriving DecidableEq

/-- The **kwargs map forwarded to the chosen parser. -/
abbrev LoadOptions := List (String × String)

/-- What load_data does with a path: hand it to a parser, or raise
ValueError with the message of line 36. -/
inductive LoadResult where
  | parsed (b : Backend) (opts : LoadOptions)
  | unsupported (message : List Char)
deriving DecidableEq

/-- load_data: dispatch on str.endswith tests, in the source's order. -/
def load_data (path : List Char) (opts : LoadOptions) : LoadResult :=
  if ".csv".data <:+ path then .parsed .csv opts
  else if ".xlsx".data <:+ path ∨ ".xls".data <:+ path then .parsed .excel opts
  else if ".json".data <:+ path then .parsed .json opts
  else .unsupported ("Unsupported file format: ".data ++ path)

/-- Of two suffixes of one list, the shorter is a suffix of the longer. -/
theorem suffix_of_suffix_of_length_le {p q s : List Char} (hp : p <:+ s)
    (hq : q <:+ s) (h : p.length ≤ q.length) : p <:+ q := by
  rw [← List.reverse_prefix] at hp hq ⊢
  exact List.prefix_of_prefix_length_le hp hq (by simpa using h)

/-- A list cannot end in q while also ending in an incompatible p that is no
longer than q. -/
theorem not_suffix_of_suffix {p q s : List Char} (hlen : p.length ≤ q.length)
    (hpq : ¬ p <:+ q) (hq : q <:+ s) : ¬ p <:+ s :=
  fun hp => hpq (suffix_of_suffix_of_length_le hp hq hlen)

/-- Claim C5: the loader dispatches strictly on the file extension (.csv to
the delimited-text parser, .xlsx/.xls to the spreadsheet parser, .json to the
structured-record parser), raises an unsupported-format error naming the
offending path for any other extension, and forwards the options map
verbatim to the chosen parser. -/
theorem load_data_dispatch (path : List Char) (opts : LoadOptions) :
    (".csv".data <:+ path → load_data path opts = .parsed .csv opts) ∧
    ((".xlsx".data <:+ path ∨ ".xls".data <:+ path) →
      load_data path opts = .parsed .excel opts) ∧
    (".json".data <:+ path → load_data path opts = .parsed .json opts) ∧
    (¬ ".csv".data <:+ path → ¬ ".xlsx".data <:+ path → ¬ ".xls".data <:+ path →
      ¬ ".json".data <:+ path →
      load_data path opts = .unsupported ("Unsupported file format: ".data ++ path)) := by
  refine ⟨fun h => ?_, fun h => ?_, fun h => ?_, fun h1 h2 h3 h4 => ?_⟩
  · simp only [load_data, if_pos h]
  · have hc : ¬ ".csv".data <:+ path := by
      rcases h with h | h
      · exact not_suffix_of_suffix (by decide) (by decide) h
      · exact not_suffix_of_suffix (by decide) (by decide) h
    simp only [load_data, if_neg hc, if_pos h]
  · have hc : ¬ ".csv".data <:+ path :=
      not_suffix_of_suffix (by decide) (by decide) h
    have hx : ¬ (".xlsx".data <:+ path ∨ ".xls".data <:+ path) := by
      rintro (h5 | h5)
      · exact not_suffix_of_suffix (by decide) (by decide) h h5
      · exact not_suffix_of_suffix (by decide) (by decide) h h5
    simp only [load_data, if_neg hc, if_neg hx, if_pos h]
  · have hx : ¬ (".xlsx".data <:+ path ∨ ".xls".data <:+ path) := by
      rintro (h5 | h5)
      · exact h2 h5
      · exact h3 h5
    simp only [load_data, if_neg h1, if_neg hx, if_neg h4]

/-! ## Explorer: explore_data (src/utils.py lines 38-65)

The console output is modelled structurally: the shape line and the
missing-value table that lines 58-65 always print.  The info and describe
blocks of lines 50-56 are straightforward displays of library output gated
on the two flags; only the flags are kept here. -/

/-- What one run of explore_data prints, structurally. -/
structure ExploreOutput where
  shape : ℕ × ℕ
  infoShown : Bool
  statsShown : Bool
  missing : List (String × ℕ × ℚ)
deriving DecidableEq

/-- explore_data: lines 59-60 compute, for every column, the missing count
and the exact percentage missing/len(df)*100; line 65 prints only the rows
whose missing count is positive. -/
def explore_data (T : Table) (showInfo showStats : Bool) : ExploreOutput :=
  { shape := (T.nRows, T.cols.length)
    infoShown := showInfo
    statsShown := showStats
    missing :=
      (T.cols.map (fun c =>
        (c.1, c.2.missingCount, (c.2.missingCount : ℚ) / (T.nRows : ℚ) * 100))).filter
        (fun e => 0 < e.2.1) }

/-- A 3-row table whose single column has one missing value: the listed
percentage is exactly 100/3, which no one-decimal figure equals. -/
def tableThirdMissing : Table :=
  ⟨[("a", .nums [some 1, none, some 2])]⟩

/-- Claim C3, counterexample: the explorer lists the exact percentage
missing/rows*100 (here 100/3, displayed by the library at its default
precision as 33.333333), not the one-decimal rounding 33.3 the claim
asserts. -/
theorem explore_missing_percent_not_one_decimal :
    (explore_data tableThirdMissing true true).missing = [("a", 1, 100 / 3)] ∧
    (100 : ℚ) / 3 ≠ roundTo 1 (100 / 3) := by
  constructor
  · norm_num [explore_data, tableThirdMissing, Table.nRows, ColData.size,
      ColData.missingCount]
  · norm_num [roundTo, round_eq]

/-- The 10-row, 3-column table of the claim's concrete example, with missing
counts (0, 2, 0). -/
def tableTenRows : Table :=
  ⟨[("a", .nums ((List.replicate 10 (0 : ℚ)).map some)),
    ("b", .nums ([some 1, none, some 2, none] ++ (List.replicate 6 (0 : ℚ)).map some)),
    ("c", .strs ((List.replicate 10 "x").map some))]⟩

/-- Claim C3, amended: the missing-value output lists exactly the columns
with nonzero missing count, in table order, each with its absolute missing
count and the exact percentage missing/rows*100 (unrounded; the display
shows it at the library's default precision); the (0,2,0)-out-of-10 example
yields the single row ("b", 2, 20). -/
theorem explore_missing_exact (T : Table) (showInfo showStats : Bool) :
    (explore_data T showInfo showStats).missing =
      (T.cols.filter (fun c => 0 < c.2.missingCount)).map (fun c =>
        (c.1, c.2.missingCount, (c.2.missingCount : ℚ) / (T.nRows : ℚ) * 100)) ∧
    (explore_data tableTenRows true true).missing = [("b", 2, 20)] := by
  constructor
  · simp only [explore_data]
    induction T.cols with
    | nil => rfl
    | cons c rest ih =>
      by_cases h : 0 < c.2.missingCount
      · simp [List.filter_cons, h, ih]
      · simp [List.filter_cons, h, ih]
  · norm_num [explore_data, tableTenRows, Table.nRows, ColData.size,
      ColData.missingCount, List.replicate, List.filter_cons]

/-! ## Visualizer: plot_distributions (src/utils.py lines 83-120)

The rendered figure is modelled as its layout: grid dimensions, one
histogram per selected column with its grid cell, bin count and
transparency, and the flat indices of the grid cells hidden by lines
114-117.  Two failure modes of the source are modelled as errors: with no
selected column, n_cols = 0 and line 97 divides by zero; with exactly one,
plt.subplots(1, 1) returns a bare Axes object and line 101 calls .reshape
on it, which raises AttributeError. -/

/-- The exception plot_distributions can raise before drawing anything. -/
inductive PlotError where
  | zeroDivisionError
  | attributeError
deriving DecidableEq

/-- One rendered histogram: its column, grid cell, bins=30 and alpha=0.7
from line 108. -/
structure Histogram where
  col : String
  gridRow : ℕ
  gridCol : ℕ
  bins : ℕ
  alpha : ℚ
deriving DecidableEq

/-- The figure layout plot_distributions produces when it succeeds. -/
structure Layout where
  nRows : ℕ
  nCols : ℕ
  hists : List Histogram
  hiddenCells : List ℕ
deriving DecidableEq

/-- Lines 93-94: an explicit column list, or every numeric column. -/
def selectedColumns (T : Table) (columns : Option (List String)) : List String :=
  columns.getD (numericNames T)

/-- plot_distributions, lines 96-117. -/
def plot_distributions (T : Table) (columns : Option (List String)) :
    Except PlotError Layout :=
  let cols := selectedColumns T columns
  let nCols := min 3 cols.length
  if nCols = 0 then .error .zeroDivisionError
  else
    let nRows := (cols.length + nCols - 1) / nCols
    if nRows = 1 ∧ nCols = 1 then .error .attributeError
    else .ok
      { nRows := nRows
        nCols := nCols
        hists := cols.enum.map (fun p =>
          { col := p.2, gridRow := p.1 / nCols, gridCol := p.1 % nCols,
            bins := 30, alpha := 7 / 10 })
        hiddenCells := (List.range (nRows * nCols)).filter (fun i => cols.length ≤ i) }

/-- Claim C10: a chart is produced exactly when the selected column list has
at least two entries; with zero or one selected column the function raises
(division by zero at line 97, or AttributeError at line 101) before
rendering any histogram. -/
theorem plot_distributions_ok_iff (T : Table) (columns : Option (List String)) :
    (∃ L, plot_distributions T columns = Except.ok L) ↔
      2 ≤ (selectedColumns T columns).length := by
  unfold plot_distributions
  rcases hsel : selectedColumns T columns with _ | ⟨a, _ | ⟨b, rest⟩⟩
  · simp
  · simp
  · have h3 : ¬ (min 3 (a :: b :: rest).length = 0) := by
      simp only [List.length_cons]; omega
    have h1 : ¬ (((a :: b :: rest).length + min 3 (a :: b :: rest).length - 1) /
        min 3 (a :: b :: rest).length = 1 ∧ min 3 (a :: b :: rest).length = 1) := by
      rintro ⟨-, hc⟩
      simp only [List.length_cons] at hc
      omega
    rw [if_neg h3, if_neg h1]
    simp only [List.length_cons]
    constructor
    · intro
      omega
    · intro
      exact ⟨_, rfl⟩

/-- A table with a single numeric column. -/
def tableOneNumeric : Table :=
  ⟨[("a", .nums [some 1])]⟩

/-- Claim C6, counterexample: with one selected column the function raises
AttributeError (line 101 calls .reshape on the bare Axes object that
plt.subplots(1, 1) returns) instead of laying out the 1-by-1 grid with
ceil(1/3) = 1 rows the claim asserts for every selected list. -/
theorem plot_single_column_no_layout :
    plot_distributions tableOneNumeric (some ["a"]) = Except.error PlotError.attributeError ∧
    ¬ ∃ L, plot_distributions tableOneNumeric (some ["a"]) = Except.ok L := by
  have h : plot_distributions tableOneNumeric (some ["a"]) =
      Except.error PlotError.attributeError := rfl
  refine ⟨h, ?_⟩
  rintro ⟨L, hL⟩
  rw [h] at hL
  simp at hL

/-- The successful branch of plot_distributions, written out: reached
whenever at least two columns are selected. -/
theorem plot_distributions_eq_of_two_le (T : Table) (columns : Option (List String))
    (h : 2 ≤ (selectedColumns T columns).length) :
    plot_distributions T columns = Except.ok
      { nRows := ((selectedColumns T columns).length +
            min 3 (selectedColumns T columns).length - 1) /
          min 3 (selectedColumns T columns).length
        nCols := min 3 (selectedColumns T columns).length
        hists := (selectedColumns T columns).enum.map (fun p =>
          { col := p.2, gridRow := p.1 / min 3 (selectedColumns T columns).length,
            gridCol := p.1 % min 3 (selectedColumns T columns).length,
            bins := 30, alpha := 7 / 10 })
        hiddenCells := (List.range
            ((((selectedColumns T columns).length +
                min 3 (selectedColumns T columns).length - 1) /
              min 3 (selectedColumns T columns).length) *
              min 3 (selectedColumns T columns).length)).filter
          (fun i => (selectedColumns T columns).length ≤ i) } := by
  have h0 : ¬ (min 3 (selectedColumns T columns).length = 0) := by omega
  have h1 : ¬ (((selectedColumns T columns).length +
      min 3 (selectedColumns T columns).length - 1) /
      min 3 (selectedColumns T columns).length = 1 ∧
      min 3 (selectedColumns T columns).length = 1) := by
    rintro ⟨-, hc⟩
    omega
  unfold plot_distributions
  rw [if_neg h0, if_neg h1]

/-- Claim C6, amended: for every selected list of n >= 2 columns (with zero
or one column the function raises instead, see the counterexample), the
layout has at most 3 grid columns and exactly ceil(n/3) rows, one histogram
per column with 30 bins and alpha 0.7, and precisely the grid cells beyond
the n-th are hidden. -/
theorem plot_distributions_grid (T : Table) (columns : Option (List String))
    (h : 2 ≤ (selectedColumns T columns).length) :
    ∃ L, plot_distributions T columns = Except.ok L ∧
      L.nCols ≤ 3 ∧
      L.nRows = ((selectedColumns T columns).length + 2) / 3 ∧
      L.hists.length = (selectedColumns T columns).length ∧
      (∀ hg ∈ L.hists, hg.bins = 30 ∧ hg.alpha = 7 / 10) ∧
      (∀ i, i ∈ L.hiddenCells ↔
        (selectedColumns T columns).length ≤ i ∧ i < L.nRows * L.nCols) := by
  refine ⟨_, plot_distributions_eq_of_two_le T columns h, ?_, ?_, ?_, ?_, ?_⟩
  · exact min_le_left 3 _
  · rcases le_or_lt 3 (selectedColumns T columns).length with h3 | h3
    · rw [min_eq_left h3]
      show ((selectedColumns T columns).length + 3 - 1) / 3 =
        ((selectedColumns T columns).length + 2) / 3
      omega
    · have hn : (selectedColumns T columns).length = 2 := by omega
      rw [hn]
      show (2 + 3 ⊓ 2 - 1) / (3 ⊓ 2) = (2 + 2) / 3
      decide
  · simp
  · rintro hg hmem
    simp only [List.mem_map] at hmem
    obtain ⟨p, -, rfl⟩ := hmem
    exact ⟨rfl, rfl⟩
  · intro i
    simp [List.mem_filter, List.mem_range, and_comm]

/-- A table with seven numeric columns, one per histogram of the claim's
concrete example. -/
def tableSevenNumeric : Table :=
  ⟨[("c1", .nums [some 1]), ("c2", .nums [some 2]), ("c3", .nums [some 3]),
    ("c4", .nums [some 4]), ("c5", .nums [some 5]), ("c6", .nums [some 6]),
    ("c7", .nums [some 7])]⟩

/-- Witness for the amended C6 at the claim's concrete instance: columns
unset on a table of 7 numeric columns, so the grid is 3 by ceil(7/3) = 3
with cells 7 and 8 hidden. -/
theorem plot_distributions_grid_witness :
    2 ≤ (selectedColumns tableSevenNumeric none).length ∧
    (∃ L, plot_distributions tableSevenNumeric none = Except.ok L ∧
      L.nCols ≤ 3 ∧
      L.nRows = ((selectedColumns tableSevenNumeric none).length + 2) / 3 ∧
      L.hists.length = (selectedColumns tableSevenNumeric none).length ∧
      (∀ hg ∈ L.hists, hg.bins = 30 ∧ hg.alpha = 7 / 10) ∧
      (∀ i, i ∈ L.hiddenCells ↔
        (selectedColumns tableSevenNumeric none).length ≤ i ∧ i < L.nRows * L.nCols)) ∧
    (List.range (3 * 3)).filter (fun i => 7 ≤ i) = [7, 8] :=
  ⟨by decide, plot_distributions_grid tableSevenNumeric none (by decide), by decide⟩

/-! ## Sample data generator: create_sample_data (src/example_analysis.py lines 10-36)

The four np.random draws of lines 16-19 and the two categorical draws of
lines 20-21 are the generator's inputs here (the generator is deterministic
given them, as it is in the source given the seed).  Lines 25-26 derive
income and satisfaction; lines 31-34 clip the four numeric columns. -/

/-- The per-row random draws of lines 16-21. -/
structure SampleDraws where
  age : List ℚ
  baseIncome : List ℚ
  tenure : List ℚ
  rawSat : List ℚ
  dept : List String
  gender : List String
deriving DecidableEq

/-- Line 25: income = base draw + age * 50000 + tenure * 100000. -/
def incomeRaw (d : SampleDraws) : List ℚ :=
  List.zipWith (fun b p => b + p) d.baseIncome
    (List.zipWith (fun a t => a * 50000 + t * 100000) d.age d.tenure)

/-- Line 26: satisfaction = uniform draw + (income - 5000000) / 1000000,
with the constant 5000000 written literally in the source. -/
def satisfactionRaw (d : SampleDraws) : List ℚ :=
  List.zipWith (fun s inc => s + (inc - 5000000) / 1000000) d.rawSat (incomeRaw d)

/-- Series.clip(lo, hi). -/
def clip (lo hi x : ℚ) : ℚ :=
  max lo (min x hi)

/-- create_sample_data: the DataFrame of lines 15-22 after the derivations
of lines 25-26 and the clipping of lines 31-34, columns in insertion
order. -/
def create_sample_data (d : SampleDraws) : Table :=
  ⟨[("年齢", .nums ((d.age.map (clip 20 65)).map some)),
    ("年収", .nums (((incomeRaw d).map (clip 2000000 15000000)).map some)),
    ("勤続年数", .nums ((d.tenure.map (clip 0 30)).map some)),
    ("満足度", .nums (((satisfactionRaw d).map (clip 1 10)).map some)),
    ("部門", .strs (d.dept.map some)),
    ("性別", .strs (d.gender.map some))]⟩

/-- The values of the named column of a table (empty if absent or text). -/
def columnVals (T : Table) (name : String) : List (Option ℚ) :=
  (((T.cols.find? (fun c => c.1 = name)).map (fun c => c.2.numVals)).getD [])

/-- clip lands in [lo, hi] whenever lo <= hi. -/
theorem clip_mem_Icc {lo hi : ℚ} (x : ℚ) (h : lo ≤ hi) :
    lo ≤ clip lo hi x ∧ clip lo hi x ≤ hi :=
  ⟨le_max_left lo _, max_le h (min_le_right x hi)⟩

/-- Claim C9: in the generated table, every present value of the four
numeric columns lies in its clipping interval: age in [20, 65], income in
[2000000, 15000000], tenure in [0, 30], satisfaction in [1, 10]. -/
theorem create_sample_data_ranges (d : SampleDraws) :
    (∀ x : ℚ, some x ∈ columnVals (create_sample_data d) "年齢" → 20 ≤ x ∧ x ≤ 65) ∧
    (∀ x : ℚ, some x ∈ columnVals (create_sample_data d) "年収" →
      2000000 ≤ x ∧ x ≤ 15000000) ∧
    (∀ x : ℚ, some x ∈ columnVals (create_sample_data d) "勤続年数" → 0 ≤ x ∧ x ≤ 30) ∧
    (∀ x : ℚ, some x ∈ columnVals (create_sample_data d) "満足度" → 1 ≤ x ∧ x ≤ 10) := by
  have h1 : columnVals (create_sample_data d) "年齢" =
      (d.age.map (clip 20 65)).map some := rfl
  have h2 : columnVals (create_sample_data d) "年収" =
      ((incomeRaw d).map (clip 2000000 15000000)).map some := rfl
  have h3 : columnVals (create_sample_data d) "勤続年数" =
      (d.tenure.map (clip 0 30)).map some := rfl
  have h4 : columnVals (create_sample_data d) "満足度" =
      ((satisfactionRaw d).map (clip 1 10)).map some := rfl
  refine ⟨fun x hx => ?_, fun x hx => ?_, fun x hx => ?_, fun x hx => ?_⟩
  · rw [h1] at hx
    simp only [List.mem_map, Option.some_inj] at hx
    obtain ⟨y, ⟨z, hz, rfl⟩, rfl⟩ := hx
    exact clip_mem_Icc z (by norm_num)
  · rw [h2] at hx
    simp only [List.mem_map, Option.some_inj] at hx
    obtain ⟨y, ⟨z, hz, rfl⟩, rfl⟩ := hx
    exact clip_mem_Icc z (by norm_num)
  · rw [h3] at hx
    simp only [List.mem_map, Option.some_inj] at hx
    obtain ⟨y, ⟨z, hz, rfl⟩, rfl⟩ := hx
    exact clip_mem_Icc z (by norm_num)
  · rw [h4] at hx
    simp only [List.mem_map, Option.some_inj] at hx
    obtain ⟨y, ⟨z, hz, rfl⟩, rfl⟩ := hx
    exact clip_mem_Icc z (by norm_num)

/-- Indexing a zipWith of two lists, inside both lengths. -/
theorem zipWith_getD (f : ℚ → ℚ → ℚ) (l₁ l₂ : List ℚ) (i : ℕ)
    (h₁ : i < l₁.length) (h₂ : i < l₂.length) :
    (List.zipWith f l₁ l₂).getD i 0 = f (l₁.getD i 0) (l₂.getD i 0) := by
  induction l₁ generalizing l₂ i with
  | nil => simp at h₁
  | cons a l ih =>
    cases l₂ with
    | nil => simp at h₂
    | cons b m =>
      cases i with
      | zero => simp
      | succ j =>
        simp only [List.zipWith_cons_cons, List.getD_cons_succ]
        exact ih m j (by simpa using h₁) (by simpa using h₂)

/-- A single-row draw set: age 0, base income 6000000, tenure 0, raw
satisfaction 5.  Its derived income is 6000000, so the income mean equals
the row's income and any term proportional to the deviation from the mean
vanishes, yet the code adds (6000000 - 5000000) / 1000000 = 1. -/
def drawsOneRow : SampleDraws :=
  ⟨[0], [6000000], [0], [5], ["営業"], ["男性"]⟩

/-- Claim C4, counterexample: satisfaction is not the raw draw plus a term
proportional to the deviation of the row's income from the income mean, for
any proportionality constant: on drawsOneRow the deviation is zero but the
satisfaction moves from 5 to 6. -/
theorem satisfaction_not_mean_deviation :
    ¬ ∃ c : ℚ, satisfactionRaw drawsOneRow =
      (drawsOneRow.rawSat.zip (incomeRaw drawsOneRow)).map
        (fun p => p.1 + c * (p.2 - meanQ (incomeRaw drawsOneRow))) := by
  rintro ⟨c, h⟩
  simp only [satisfactionRaw, incomeRaw, drawsOneRow, meanQ, List.zipWith_cons_cons,
    List.zipWith_nil_right, List.zip_cons_cons, List.zip_nil_right, List.map_cons,
    List.map_nil, List.sum_cons, List.sum_nil, List.length_cons, List.length_nil,
    List.cons.injEq, and_true] at h
  norm_num at h

/-- Claim C4, amended: income is the base income draw plus 50000 per year
of age and 100000 per year of tenure (as claimed); satisfaction is the raw
uniform draw plus (income - 5000000) / 1000000, where 5000000 is the fixed
location parameter of the base income distribution written literally on
line 26, not the mean of the income column. -/
theorem income_satisfaction_formulas (d : SampleDraws) (i : ℕ)
    (ha : i < d.age.length) (hb : i < d.baseIncome.length)
    (ht : i < d.tenure.length) (hs : i < d.rawSat.length) :
    (incomeRaw d).getD i 0 =
      d.baseIncome.getD i 0 + d.age.getD i 0 * 50000 + d.tenure.getD i 0 * 100000 ∧
    (satisfactionRaw d).getD i 0 =
      d.rawSat.getD i 0 + ((incomeRaw d).getD i 0 - 5000000) / 1000000 := by
  have hlen : i < (incomeRaw d).length := by
    simp only [incomeRaw, List.length_zipWith]
    omega
  have hinc : (incomeRaw d).getD i 0 =
      d.baseIncome.getD i 0 + d.age.getD i 0 * 50000 + d.tenure.getD i 0 * 100000 := by
    unfold incomeRaw
    rw [zipWith_getD _ _ _ _ hb (by simp only [List.length_zipWith]; omega),
      zipWith_getD _ _ _ _ ha ht]
    ring
  refine ⟨hinc, ?_⟩
  unfold satisfactionRaw
  rw [zipWith_getD _ _ _ _ hs hlen]

/-- Witness for the amended C4 at row 0 of the concrete single-row draws:
income 6000000 = 6000000 + 0 + 0 and satisfaction 6 = 5 + 1. -/
theorem income_satisfaction_formulas_witness :
    0 < drawsOneRow.age.length ∧
    ((incomeRaw drawsOneRow).getD 0 0 = drawsOneRow.baseIncome.getD 0 0 +
        drawsOneRow.age.getD 0 0 * 50000 + drawsOneRow.tenure.getD 0 0 * 100000 ∧
      (satisfactionRaw drawsOneRow).getD 0 0 = drawsOneRow.rawSat.getD 0 0 +
        ((incomeRaw drawsOneRow).getD 0 0 - 5000000) / 1000000) :=
  ⟨by norm_num [drawsOneRow], income_satisfaction_formulas drawsOneRow 0
    (by norm_num [drawsOneRow]) (by norm_num [drawsOneRow])
    (by norm_num [drawsOneRow]) (by norm_num [drawsOneRow])⟩

/-! ## Report builder: create_summary_report (src/utils.py lines 134-163)

The written file is modelled as its sequence of entries.  Line 153 formats
the missing percentage with {:.1f}; line 156 writes df.describe()
unrounded, at the formatter's display default (fixed six-decimal figures,
or scientific notation with a six-decimal mantissa for a column holding
values outside the fixed-point range); line 158 writes the correlation
header unconditionally and lines 159-161 append the matrix body only when
more than one numeric column exists. -/

/-- Insert into an ascending sorted list. -/
def insertSorted (x : ℚ) : List ℚ → List ℚ
  | [] => [x]
  | y :: ys => if x ≤ y then x :: y :: ys else y :: insertSorted x ys

/-- Insertion sort, ascending (the order describe's quantiles need). -/
def sortQ (l : List ℚ) : List ℚ :=
  l.foldr insertSorted []

/-- The linear-interpolation quantile pandas describe uses, over the
non-missing values; 0 on an empty list (pandas shows NaN there). -/
def quantile (l : List ℚ) (p : ℚ) : ℚ :=
  let s := sortQ l
  let n := s.length
  if n = 0 then 0
  else
    let h : ℚ := ((n : ℚ) - 1) * p
    let lo := (⌊h⌋).toNat
    let hi := min (lo + 1) (n - 1)
    s.getD lo 0 + (h - ⌊h⌋) * (s.getD hi 0 - s.getD lo 0)

/-- One column's row of df.describe(): count, mean, std, min, quartiles,
max over the non-missing values. -/
structure DescribeStats where
  count : ℕ
  mean : ℚ
  std : ℝ
  min : ℚ
  q25 : ℚ
  q50 : ℚ
  q75 : ℚ
  max : ℚ

/-- df.describe() for one numeric column: statistics over the non-missing
values, std with the ddof = 1 denominator pandas uses (0 when count <= 1,
where pandas shows NaN). -/
noncomputable def describeColumn (vs : List (Option ℚ)) : DescribeStats :=
  let xs := somes vs
  { count := xs.length
    mean := meanQ xs
    std := Real.sqrt (((xs.map (fun x => (x - meanQ xs) ^ 2)).sum /
      ((xs.length : ℚ) - 1) : ℚ))
    min := quantile xs 0
    q25 := quantile xs (1 / 4)
    q50 := quantile xs (1 / 2)
    q75 := quantile xs (3 / 4)
    max := quantile xs 1 }

/-- Rounding a real to k decimal places. -/
noncomputable def roundToR (k : ℕ) (x : ℝ) : ℝ :=
  (round (x * 10 ^ k) : ℤ) / 10 ^ k

/-- The %.6e rendering of the library's formatter on a rational: the
mantissa in [1, 10) rounded to six decimal places, at the value's decimal
exponent. -/
def sciRound (q : ℚ) : ℚ :=
  if q = 0 then 0
  else
    (if q < 0 then (-1 : ℚ) else 1) *
      ((round (|q| / (10 : ℚ) ^ Int.log 10 |q| * 10 ^ 6) : ℚ) / 10 ^ 6) *
      (10 : ℚ) ^ Int.log 10 |q|

/-- The %.6e rendering on a real figure (the standard deviation). -/
noncomputable def sciRoundR (x : ℝ) : ℝ :=
  if x = 0 then 0
  else
    (if x < 0 then (-1 : ℝ) else 1) *
      ((round (|x| / (10 : ℝ) ^ Int.log 10 |x| * 10 ^ 6) : ℤ) / 10 ^ 6) *
      (10 : ℝ) ^ Int.log 10 |x|

/-- A figure the library's formatter cannot keep in fixed six-decimal
display: above 1e6 in absolute value (its fixed rendering overflows the
column width), or nonzero below 1e-6. -/
def sciTrigger (v : ℝ) : Prop :=
  1000000 < |v| ∨ (v ≠ 0 ∧ |v| < 1 / 1000000)

/-- Whether the formatter renders the describe column in scientific
notation: some figure of the column (count is printed as a float too)
triggers the fallback. -/
def usesScientific (s : DescribeStats) : Prop :=
  sciTrigger (s.count : ℝ) ∨ sciTrigger (s.mean : ℝ) ∨ sciTrigger s.std ∨
    sciTrigger (s.min : ℝ) ∨ sciTrigger (s.q25 : ℝ) ∨ sciTrigger (s.q50 : ℝ) ∨
    sciTrigger (s.q75 : ℝ) ∨ sciTrigger (s.max : ℝ)

open Classical in
/-- How DataFrame.to_string renders a describe row at the default display
precision of 6: fixed six-decimal figures while every figure of the column
fits that format, scientific notation with a six-decimal mantissa once any
figure falls outside it (as the income statistics of the example pipeline
do).  The count is kept as the integer it denotes; its rendering is
value-exact below 10^7. -/
noncomputable def displayStats (s : DescribeStats) : DescribeStats :=
  if usesScientific s then
    { count := s.count
      mean := sciRound s.mean
      std := sciRoundR s.std
      min := sciRound s.min
      q25 := sciRound s.q25
      q50 := sciRound s.q50
      q75 := sciRound s.q75
      max := sciRound s.max }
  else
    { count := s.count
      mean := roundTo 6 s.mean
      std := roundToR 6 s.std
      min := roundTo 6 s.min
      q25 := roundTo 6 s.q25
      q50 := roundTo 6 s.q50
      q75 := roundTo 6 s.q75
      max := roundTo 6 s.max }

/-- One entry of the written report, in file order. -/
inductive ReportEntry where
  | titleLine
  | shapeLine (rows cols : ℕ)
  | memoryLine
  | colInfoHeader
  | colInfoLine (name : String) (numeric : Bool) (missing : ℕ) (missingPct : ℚ)
  | statsHeader
  | statsBlock (stats : List (String × DescribeStats))
  | corrHeader
  | corrBlock (labels : List String)

/-- create_summary_report: the entries lines 143-161 write, in order.  The
correlation header of line 158 is written unconditionally; the matrix body
is appended only when more than one numeric column exists (line 160). -/
noncomputable def create_summary_report (T : Table) : List ReportEntry :=
  [ReportEntry.titleLine,
   ReportEntry.shapeLine T.nRows T.cols.length,
   ReportEntry.memoryLine,
   ReportEntry.colInfoHeader] ++
  T.cols.map (fun c =>
    ReportEntry.colInfoLine c.1 c.2.isNumeric c.2.missingCount
      (roundTo 1 ((c.2.missingCount : ℚ) / (T.nRows : ℚ) * 100))) ++
  [ReportEntry.statsHeader,
   ReportEntry.statsBlock ((numericCols T).map (fun c =>
     (c.1, displayStats (describeColumn c.2.numVals)))),
   ReportEntry.corrHeader] ++
  (if 1 < (numericCols T).length then [ReportEntry.corrBlock (numericNames T)] else [])

/-- Claim C1, counterexample: on a table with exactly one numeric column
the report still contains the correlation header line (line 158 writes it
before the numeric-column test of line 160). -/
theorem corr_header_with_one_numeric_column :
    ReportEntry.corrHeader ∈ create_summary_report tableOneNumeric ∧
    (numericCols tableOneNumeric).length = 1 := by
  constructor
  · simp [create_summary_report]
  · rfl

/-- Claim C1, amended: the correlation header line appears in every report;
what is omitted when fewer than two numeric columns exist is only the
matrix body, while with at least two it is present. -/
theorem corr_header_always_body_conditional (T : Table) :
    ReportEntry.corrHeader ∈ create_summary_report T ∧
    ((numericCols T).length ≤ 1 →
      ∀ ls, ReportEntry.corrBlock ls ∉ create_summary_report T) ∧
    (1 < (numericCols T).length →
      ReportEntry.corrBlock (numericNames T) ∈ create_summary_report T) := by
  refine ⟨?_, ?_, ?_⟩
  · simp [create_summary_report]
  · intro hle ls hmem
    have hneg : ¬ 1 < (numericCols T).length := by omega
    simp [create_summary_report, if_neg hneg] at hmem
  · intro hlt
    simp [create_summary_report, if_pos hlt]

/-- roundTo lands on the grid of multiples of 10^(-k). -/
theorem roundTo_on_grid (k : ℕ) (q : ℚ) : ∃ z : ℤ, roundTo k q = (z : ℚ) / 10 ^ k :=
  ⟨round (q * 10 ^ k), rfl⟩

/-- roundTo moves its argument by at most half a grid step. -/
theorem roundTo_abs_le (k : ℕ) (q : ℚ) : |roundTo k q - q| ≤ 1 / (2 * 10 ^ k) := by
  have h10 : (0 : ℚ) < 10 ^ k := by positivity
  have h := abs_sub_round (q * 10 ^ k)
  have heq : roundTo k q - q = -((q * 10 ^ k - (round (q * 10 ^ k) : ℚ)) / 10 ^ k) := by
    rw [roundTo]
    field_simp
    ring
  rw [heq, abs_neg, abs_div, abs_of_pos h10, div_le_div_iff₀ h10 (by positivity)]
  calc |q * 10 ^ k - (round (q * 10 ^ k) : ℚ)| * (2 * 10 ^ k)
      ≤ 1 / 2 * (2 * 10 ^ k) := mul_le_mul_of_nonneg_right h (by positivity)
    _ = 1 * 10 ^ k := by ring

/-- A colInfoLine entry of the report comes from a column of the table,
with the percentage of line 153. -/
theorem colInfoLine_mem_report {T : Table} {name : String} {numeric : Bool}
    {missing : ℕ} {pct : ℚ}
    (h : ReportEntry.colInfoLine name numeric missing pct ∈ create_summary_report T) :
    ∃ c ∈ T.cols, name = c.1 ∧ missing = c.2.missingCount ∧
      pct = roundTo 1 ((c.2.missingCount : ℚ) / (T.nRows : ℚ) * 100) := by
  unfold create_summary_report at h
  rcases List.mem_append.1 h with h | h
  swap
  · by_cases hcc : 1 < (numericCols T).length
    · rw [if_pos hcc] at h
      simp at h
    · rw [if_neg hcc] at h
      exact absurd h (List.not_mem_nil _)
  rcases List.mem_append.1 h with h | h
  swap
  · simp at h
  rcases List.mem_append.1 h with h | h
  · simp at h
  obtain ⟨c, hmem, hc2⟩ := List.mem_map.1 h
  injection hc2 with e1 e2 e3 e4
  exact ⟨c, hmem, e1.symm, e3.symm, e4.symm⟩

/-- The one statsBlock entry of the report carries the displayed describe
rows of the numeric columns. -/
theorem statsBlock_mem_report {T : Table} {ss : List (String × DescribeStats)}
    (h : ReportEntry.statsBlock ss ∈ create_summary_report T) :
    ss = (numericCols T).map (fun c => (c.1, displayStats (describeColumn c.2.numVals))) := by
  unfold create_summary_report at h
  rcases List.mem_append.1 h with h | h
  swap
  · by_cases hcc : 1 < (numericCols T).length
    · rw [if_pos hcc] at h
      simp at h
    · rw [if_neg hcc] at h
      exact absurd h (List.not_mem_nil _)
  rcases List.mem_append.1 h with h | h
  swap
  · rcases List.mem_cons.1 h with h | h
    · cases h
    rcases List.mem_cons.1 h with h | h
    · exact ReportEntry.statsBlock.inj h
    rcases List.mem_cons.1 h with h | h
    · cases h
    · exact absurd h (List.not_mem_nil _)
  rcases List.mem_append.1 h with h | h
  · simp at h
  obtain ⟨c, hmem, hc2⟩ := List.mem_map.1 h
  cases hc2

/-- Claim C2, amended: every missing-value percentage in the report is
rounded to one decimal place (a multiple of 0.1, within 0.05 of the exact
percentage), but the descriptive-statistics figures are not rounded to two
decimal places: they are written at the library's default display
formatting, and in particular whenever the column's figures all fit fixed
six-decimal display the written mean is a multiple of 0.000001 within
0.0000005 of the exact statistic (columns with a figure outside that
range, such as the example pipeline's income, are rendered in scientific
notation with a six-decimal mantissa instead). -/
theorem report_rounding (T : Table) :
    (∀ e ∈ create_summary_report T, ∀ name numeric missing pct,
      e = ReportEntry.colInfoLine name numeric missing pct →
        (∃ k : ℤ, pct = (k : ℚ) / 10) ∧
        |pct - (missing : ℚ) / (T.nRows : ℚ) * 100| ≤ 1 / 20) ∧
    (∀ e ∈ create_summary_report T, ∀ ss, e = ReportEntry.statsBlock ss →
      ∀ p ∈ ss, ∃ c ∈ numericCols T,
        p = (c.1, displayStats (describeColumn c.2.numVals)) ∧
        (¬ usesScientific (describeColumn c.2.numVals) →
          (∃ k : ℤ, p.2.mean = (k : ℚ) / 1000000) ∧
          |p.2.mean - (describeColumn c.2.numVals).mean| ≤ 1 / 2000000)) := by
  constructor
  · rintro e he name numeric missing pct rfl
    obtain ⟨c, hmem, rfl, hmiss, rfl⟩ := colInfoLine_mem_report he
    constructor
    · obtain ⟨z, hz⟩ := roundTo_on_grid 1 ((c.2.missingCount : ℚ) / (T.nRows : ℚ) * 100)
      exact ⟨z, by rw [hz]; norm_num⟩
    · rw [hmiss]
      have := roundTo_abs_le 1 ((c.2.missingCount : ℚ) / (T.nRows : ℚ) * 100)
      calc |roundTo 1 ((c.2.missingCount : ℚ) / (T.nRows : ℚ) * 100) -
            (c.2.missingCount : ℚ) / (T.nRows : ℚ) * 100| ≤ 1 / (2 * 10 ^ 1) := this
        _ = 1 / 20 := by norm_num
  · rintro e he ss rfl p hp
    have hss := statsBlock_mem_report he
    subst hss
    obtain ⟨c, hmem, rfl⟩ := List.mem_map.1 hp
    refine ⟨c, hmem, rfl, fun hfix => ?_⟩
    have hmean : (displayStats (describeColumn c.2.numVals)).mean =
        roundTo 6 (describeColumn c.2.numVals).mean := by
      unfold displayStats
      rw [if_neg hfix]
    constructor
    · obtain ⟨z, hz⟩ := roundTo_on_grid 6 (describeColumn c.2.numVals).mean
      refine ⟨z, ?_⟩
      show (displayStats (describeColumn c.2.numVals)).mean = (z : ℚ) / 1000000
      rw [hmean, hz]
      norm_num
    · show |(displayStats (describeColumn c.2.numVals)).mean -
        (describeColumn c.2.numVals).mean| ≤ 1 / 2000000
      rw [hmean]
      have := roundTo_abs_le 6 (describeColumn c.2.numVals).mean
      calc |roundTo 6 (describeColumn c.2.numVals).mean -
            (describeColumn c.2.numVals).mean| ≤ 1 / (2 * 10 ^ 6) := this
        _ = 1 / 2000000 := by norm_num

/-- A one-numeric-column table whose mean, 2/3, is not representable at two
decimal places. -/
def tableThreeVals : Table :=
  ⟨[("x", .nums [some 0, some 1, some 1])]⟩

/-- Claim C2, counterexample: column x's figures all fit fixed six-decimal
display, so the statistics block writes its mean as 0.666667, which is
neither the two-decimal rounding 0.67 the claim asserts nor the exact mean
2/3. -/
theorem stats_value_not_two_decimals :
    ReportEntry.statsBlock
        [("x", displayStats (describeColumn [some 0, some 1, some 1]))] ∈
      create_summary_report tableThreeVals ∧
    (displayStats (describeColumn [some 0, some 1, some 1])).mean =
      roundTo 6 (describeColumn [some 0, some 1, some 1]).mean ∧
    (describeColumn [some 0, some 1, some 1]).mean = 2 / 3 ∧
    roundTo 6 (2 / 3 : ℚ) ≠ roundTo 2 (2 / 3 : ℚ) ∧
    roundTo 6 (2 / 3 : ℚ) ≠ (2 / 3 : ℚ) := by
  have hsomes : somes [some (0 : ℚ), some 1, some 1] = [0, 1, 1] := rfl
  have hsort : sortQ [(0 : ℚ), 1, 1] = [0, 1, 1] := by
    norm_num [sortQ, insertSorted]
  have hq0 : quantile [(0 : ℚ), 1, 1] 0 = 0 := by
    norm_num [quantile, hsort]
  have hq25 : quantile [(0 : ℚ), 1, 1] (1 / 4) = 1 / 2 := by
    norm_num [quantile, hsort]
  have hq50 : quantile [(0 : ℚ), 1, 1] (1 / 2) = 1 := by
    norm_num [quantile, hsort]
  have hq75 : quantile [(0 : ℚ), 1, 1] (3 / 4) = 1 := by
    norm_num [quantile, hsort]
  have hq1 : quantile [(0 : ℚ), 1, 1] 1 = 1 := by
    have h2 : Int.toNat 2 = 2 := rfl
    norm_num [quantile, hsort, h2]
  have hD : describeColumn [some (0 : ℚ), some 1, some 1] =
      { count := 3, mean := 2 / 3, std := Real.sqrt ((1 / 3 : ℚ) : ℝ),
        min := 0, q25 := 1 / 2, q50 := 1, q75 := 1, max := 1 } := by
    simp only [describeColumn, hsomes]
    simp only [DescribeStats.mk.injEq]
    refine ⟨by norm_num, by norm_num [meanQ], ?_, hq0, hq25, hq50, hq75, hq1⟩
    congr 1
    push_cast
    norm_num [meanQ]
  have hstd_le : Real.sqrt ((1 / 3 : ℚ) : ℝ) ≤ 1 := by
    rw [show ((1 / 3 : ℚ) : ℝ) = 1 / 3 by norm_num]
    exact Real.sqrt_le_one.2 (by norm_num)
  have hstd_ge : (1 / 2 : ℝ) ≤ Real.sqrt ((1 / 3 : ℚ) : ℝ) := by
    rw [show ((1 / 3 : ℚ) : ℝ) = 1 / 3 by norm_num,
      show (1 / 2 : ℝ) = Real.sqrt ((1 / 2) ^ 2) from (Real.sqrt_sq (by norm_num)).symm]
    apply Real.sqrt_le_sqrt
    norm_num
  have hns : ¬ usesScientific (describeColumn [some (0 : ℚ), some 1, some 1]) := by
    rw [hD]
    unfold usesScientific sciTrigger
    have h0 : (0 : ℝ) ≤ Real.sqrt ((1 / 3 : ℚ) : ℝ) := Real.sqrt_nonneg _
    rintro (h | h | h | h | h | h | h | h)
    · rcases h with h | ⟨h1, h2⟩
      · norm_num [lt_abs] at h
      · norm_num [abs_lt] at h2
    · rcases h with h | ⟨h1, h2⟩
      · norm_num [lt_abs] at h
      · norm_num [abs_lt] at h2
    · rcases h with h | ⟨-, h⟩
      · simp only [abs_of_nonneg h0] at h
        linarith
      · simp only [abs_of_nonneg h0] at h
        linarith
    · rcases h with h | ⟨h1, h2⟩
      · norm_num [lt_abs] at h
      · norm_num at h1
    · rcases h with h | ⟨h1, h2⟩
      · norm_num [lt_abs] at h
      · norm_num [abs_lt] at h2
    · rcases h with h | ⟨h1, h2⟩
      · norm_num [lt_abs] at h
      · norm_num [abs_lt] at h2
    · rcases h with h | ⟨h1, h2⟩
      · norm_num [lt_abs] at h
      · norm_num [abs_lt] at h2
    · rcases h with h | ⟨h1, h2⟩
      · norm_num [lt_abs] at h
      · norm_num [abs_lt] at h2
  refine ⟨?_, ?_, ?_, ?_, ?_⟩
  · have hmap : (numericCols tableThreeVals).map
        (fun c => (c.1, displayStats (describeColumn c.2.numVals))) =
        [("x", displayStats (describeColumn [some 0, some 1, some 1]))] := rfl
    unfold create_summary_report
    rw [hmap]
    simp
  · show (displayStats (describeColumn [some (0 : ℚ), some 1, some 1])).mean =
      roundTo 6 (describeColumn [some (0 : ℚ), some 1, some 1]).mean
    unfold displayStats
    rw [if_neg hns]
  · rw [hD]
  · norm_num [roundTo, round_eq]
  · norm_num [roundTo, round_eq]

/-! ## Correlation matrix (df.corr at src/utils.py lines 76 and 159-161)

df.corr is external library code; only its call sites are in the
repository, so the correlation coefficient itself is modelled from the
spec's glossary (pairwise linear-correlation coefficients over the numeric
columns, pairwise-complete observations). -/

/-- The rows where both columns have a value (pairwise completion). -/
def pairedVals (xs ys : List (Option ℚ)) : List (ℚ × ℚ) :=
  (xs.zip ys).filterMap (fun p =>
    match p.1, p.2 with
    | some a, some b => some (a, b)
    | _, _ => none)

/-- Sum of squared deviations from the mean. -/
def varSum (l : List ℚ) : ℚ :=
  (l.map (fun x => (x - meanQ l) ^ 2)).sum

/-- Sum of products of deviations from the two means. -/
def covSum (ps : List (ℚ × ℚ)) : ℚ :=
  (ps.map (fun p =>
    (p.1 - meanQ (ps.map Prod.fst)) * (p.2 - meanQ (ps.map Prod.snd)))).sum

/-- Modelled from the spec: the pairwise linear-correlation coefficient of
the glossary, Pearson's r (df.corr itself is external library code not in
this repository). -/
noncomputable def corrCoeff (ps : List (ℚ × ℚ)) : ℝ :=
  (covSum ps : ℝ) /
    Real.sqrt ((varSum (ps.map Prod.fst) : ℝ) * (varSum (ps.map Prod.snd) : ℝ))

/-- Modelled from the spec: the CorrelationMatrix entity, derived from the
numeric subset of the table's columns and indexed by the numeric column
names in their table order: the labels and the entry function. -/
noncomputable def corrMatrix (T : Table) : List String × (ℕ → ℕ → ℝ) :=
  (numericNames T, fun i j =>
    corrCoeff (pairedVals
      (((numericCols T).getD i ("", ColData.nums [])).2.numVals)
      (((numericCols T).getD j ("", ColData.nums [])).2.numVals)))

/-- Pairing a column with itself keeps exactly its present values,
duplicated. -/
theorem pairedVals_self (xs : List (Option ℚ)) :
    pairedVals xs xs = (somes xs).map (fun a => (a, a)) := by
  induction xs with
  | nil => rfl
  | cons a t ih =>
    cases a with
    | none =>
      rw [show pairedVals (none :: t) (none :: t) = pairedVals t t from rfl, ih]
      rfl
    | some v =>
      rw [show pairedVals (some v :: t) (some v :: t) = (v, v) :: pairedVals t t from rfl,
        ih]
      rfl

/-- Pairing in the opposite order swaps every pair. -/
theorem pairedVals_swap (xs ys : List (Option ℚ)) :
    pairedVals ys xs = (pairedVals xs ys).map Prod.swap := by
  induction xs generalizing ys with
  | nil => cases ys <;> rfl
  | cons a t ih =>
    cases ys with
    | nil => rfl
    | cons b u =>
      cases a with
      | none =>
        cases b with
        | none => exact ih u
        | some w => exact ih u
      | some v =>
        cases b with
        | none => exact ih u
        | some w =>
          show (w, v) :: pairedVals u t = ((v, w) :: pairedVals t u).map Prod.swap
          rw [List.map_cons, ih u]
          rfl

/-- The covariance numerator is invariant under swapping every pair. -/
theorem covSum_swap (ps : List (ℚ × ℚ)) : covSum (ps.map Prod.swap) = covSum ps := by
  unfold covSum
  have h1 : (ps.map Prod.swap).map Prod.fst = ps.map Prod.snd := by
    simp [List.map_map, Function.comp]
  have h2 : (ps.map Prod.swap).map Prod.snd = ps.map Prod.fst := by
    simp [List.map_map, Function.comp]
  rw [h1, h2, List.map_map]
  congr 1
  apply List.map_congr_left
  intro p hp
  simp only [Function.comp_apply, Prod.fst_swap, Prod.snd_swap]
  ring

/-- On duplicated values the covariance numerator is the squared-deviation
sum. -/
theorem covSum_dup (l : List ℚ) :
    covSum (l.map (fun a => (a, a))) = varSum l := by
  unfold covSum varSum
  have h1 : (l.map (fun a => (a, a))).map Prod.fst = l := by
    simp [List.map_map, Function.comp_def]
  have h2 : (l.map (fun a => (a, a))).map Prod.snd = l := by
    simp [List.map_map, Function.comp_def]
  rw [h1, h2, List.map_map]
  congr 1
  apply List.map_congr_left
  intro a ha
  simp only [Function.comp_apply]
  ring

/-- The correlation coefficient is symmetric in its two coordinates. -/
theorem corrCoeff_swap (ps : List (ℚ × ℚ)) : corrCoeff (ps.map Prod.swap) = corrCoeff ps := by
  unfold corrCoeff
  have h1 : (ps.map Prod.swap).map Prod.fst = ps.map Prod.snd := by
    simp [List.map_map, Function.comp]
  have h2 : (ps.map Prod.swap).map Prod.snd = ps.map Prod.fst := by
    simp [List.map_map, Function.comp]
  rw [covSum_swap, h1, h2, mul_comm]

/-- A column of positive squared-deviation sum correlates with itself at
exactly 1. -/
theorem corrCoeff_dup {l : List ℚ} (h : 0 < varSum l) :
    corrCoeff (l.map (fun a => (a, a))) = 1 := by
  unfold corrCoeff
  have h1 : (l.map (fun a => (a, a))).map Prod.fst = l := by
    simp [List.map_map, Function.comp_def]
  have h2 : (l.map (fun a => (a, a))).map Prod.snd = l := by
    simp [List.map_map, Function.comp_def]
  rw [covSum_dup, h1, h2]
  have hl : (0 : ℝ) < (varSum l : ℝ) := by exact_mod_cast h
  rw [Real.sqrt_mul_self hl.le]
  exact div_self hl.ne'

/-- Claim C8: for a table with at least two numeric columns whose present
values are not all constant (Pearson's r is undefined for a constant
column, where the library shows NaN), the correlation matrix is indexed by
exactly the numeric column names in table order (hence square), symmetric
within 1e-9, and carries 1.0 on the diagonal within 1e-9. -/
theorem corrMatrix_square_symm_diag (T : Table)
    (h2 : 2 ≤ (numericCols T).length)
    (hvar : ∀ c ∈ numericCols T, 0 < varSum (somes c.2.numVals)) :
    (corrMatrix T).1 = (T.cols.filter (fun c => c.2.isNumeric)).map (fun c => c.1) ∧
    (∀ i j, |(corrMatrix T).2 i j - (corrMatrix T).2 j i| ≤ 1 / 1000000000) ∧
    (∀ i, i < (corrMatrix T).1.length →
      |(corrMatrix T).2 i i - 1| ≤ 1 / 1000000000) := by
  refine ⟨rfl, ?_, ?_⟩
  · intro i j
    have hsym : (corrMatrix T).2 j i = (corrMatrix T).2 i j := by
      show corrCoeff (pairedVals
          (((numericCols T).getD j ("", ColData.nums [])).2.numVals)
          (((numericCols T).getD i ("", ColData.nums [])).2.numVals)) =
        corrCoeff (pairedVals
          (((numericCols T).getD i ("", ColData.nums [])).2.numVals)
          (((numericCols T).getD j ("", ColData.nums [])).2.numVals))
      rw [pairedVals_swap (((numericCols T).getD i ("", ColData.nums [])).2.numVals)
        (((numericCols T).getD j ("", ColData.nums [])).2.numVals)]
      exact corrCoeff_swap _
    rw [hsym, sub_self, abs_zero]
    norm_num
  · intro i hi
    have hi2 : i < (numericCols T).length := by
      have : (corrMatrix T).1.length = (numericCols T).length := by
        simp [corrMatrix, numericNames]
      omega
    have hmem : (numericCols T).getD i ("", ColData.nums []) ∈ numericCols T := by
      rw [List.getD_eq_getElem _ _ hi2]
      exact List.getElem_mem hi2
    have hdiag : (corrMatrix T).2 i i = 1 := by
      show corrCoeff (pairedVals
          (((numericCols T).getD i ("", ColData.nums [])).2.numVals)
          (((numericCols T).getD i ("", ColData.nums [])).2.numVals)) = 1
      rw [pairedVals_self]
      exact corrCoeff_dup (hvar _ hmem)
    rw [hdiag, sub_self, abs_zero]
    norm_num

/-- A table of two non-constant numeric columns. -/
def tableTwoNumeric : Table :=
  ⟨[("x", .nums [some 1, some 2]), ("y", .nums [some 2, some 1])]⟩

/-- Witness for C8 on the concrete two-column table: both hypotheses hold
there and the conclusion follows by the theorem. -/
theorem corrMatrix_square_symm_diag_witness :
    (2 ≤ (numericCols tableTwoNumeric).length ∧
      ∀ c ∈ numericCols tableTwoNumeric, 0 < varSum (somes c.2.numVals)) ∧
    ((corrMatrix tableTwoNumeric).1 =
        (tableTwoNumeric.cols.filter (fun c => c.2.isNumeric)).map (fun c => c.1) ∧
      (∀ i j, |(corrMatrix tableTwoNumeric).2 i j -
        (corrMatrix tableTwoNumeric).2 j i| ≤ 1 / 1000000000) ∧
      (∀ i, i < (corrMatrix tableTwoNumeric).1.length →
        |(corrMatrix tableTwoNumeric).2 i i - 1| ≤ 1 / 1000000000)) := by
  have hvar : ∀ c ∈ numericCols tableTwoNumeric, 0 < varSum (somes c.2.numVals) := by
    intro c hc
    fin_cases hc
    · rw [show somes (ColData.nums [some (1 : ℚ), some 2]).numVals = [1, 2] from rfl]
      norm_num [varSum, meanQ]
    · rw [show somes (ColData.nums [some (2 : ℚ), some 1]).numVals = [2, 1] from rfl]
      norm_num [varSum, meanQ]
  exact ⟨⟨by decide, hvar⟩,
    corrMatrix_square_symm_diag tableTwoNumeric (by decide) hvar⟩

/-! ## Delimited-text round trip (spec section 8)

df.to_csv (src/example_analysis.py line 47) and pd.read_csv (the parser
load_data dispatches to) are external library code, so the written file
format is modelled from the spec: one column of text or decimal cells per
table column, missing cells empty. -/

/-- A written column: decimal numerals (scaled integers at 12 fractional
digits) or verbatim text, missing cells empty. -/
inductive CsvColW where
  | numsW (vals : List (Option ℤ))
  | strsW (vals : List (Option String))
deriving DecidableEq

/-- Modelled from the spec: the delimited-text writer behind df.to_csv.  A
numeric cell is written as a decimal with 12 fractional digits (kept here
as the scaled integer round(q * 10^12)), a text cell verbatim, a missing
cell empty. -/
def writeCsv (T : Table) : List (String × CsvColW) :=
  T.cols.map (fun c =>
    (c.1, match c.2 with
      | ColData.nums vs => CsvColW.numsW (vs.map (Option.map (fun q => round (q * 10 ^ 12))))
      | ColData.strs vs => CsvColW.strsW vs))

/-- Modelled from the spec: the delimited-text parser the loader dispatches
to.  A written decimal reads back as exactly the rational it denotes. -/
def loadCsv (f : List (String × CsvColW)) : Table :=
  ⟨f.map (fun c =>
    (c.1, match c.2 with
      | CsvColW.numsW vs => ColData.nums (vs.map (Option.map (fun (z : ℤ) => (z : ℚ) / 10 ^ 12)))
      | CsvColW.strsW vs => ColData.strs vs))⟩

/-- What one column turns into after a write-then-load round trip. -/
def roundtripCol : ColData → ColData
  | ColData.nums vs => ColData.nums (vs.map (Option.map
      (fun q => ((round (q * 10 ^ 12) : ℤ) : ℚ) / 10 ^ 12)))
  | ColData.strs vs => ColData.strs vs

/-- The round trip acts columnwise. -/
theorem loadCsv_writeCsv (T : Table) :
    (loadCsv (writeCsv T)).cols = T.cols.map (fun c => (c.1, roundtripCol c.2)) := by
  unfold loadCsv writeCsv
  rw [List.map_map]
  apply List.map_congr_left
  intro c hc
  obtain ⟨nm, cd⟩ := c
  cases cd with
  | nums vs =>
    show (nm, ColData.nums ((vs.map (Option.map (fun q => round (q * 10 ^ 12)))).map
        (Option.map (fun z : ℤ => (z : ℚ) / 10 ^ 12)))) =
      (nm, ColData.nums (vs.map (Option.map
        (fun q => ((round (q * 10 ^ 12) : ℤ) : ℚ) / 10 ^ 12))))
    rw [List.map_map]
    congr 2
    apply List.map_congr_left
    intro o ho
    simp only [Function.comp_apply, Option.map_map]
    rfl
  | strs vs => rfl

/-- Indexing a mapped option list with default none commutes with the
map. -/
theorem getD_map_option (f : ℚ → ℚ) (vs : List (Option ℚ)) (j : ℕ) :
    (vs.map (Option.map f)).getD j none = Option.map f (vs.getD j none) := by
  induction vs generalizing j with
  | nil => rfl
  | cons a t ih =>
    cases j with
    | zero => rfl
    | succ k =>
      simp only [List.map_cons, List.getD_cons_succ]
      exact ih k

/-- Claim C7: writing a table with the delimited-text writer and loading
the file back is the identity on column names, order and kinds, exact on
text columns, and within 1e-9 on every numeric cell (missing cells stay
missing). -/
theorem csv_roundtrip (T : Table) :
    (loadCsv (writeCsv T)).cols.length = T.cols.length ∧
    ∀ i, i < T.cols.length →
      ((loadCsv (writeCsv T)).cols.getD i ("", ColData.nums [])).1 =
        (T.cols.getD i ("", ColData.nums [])).1 ∧
      (∀ vs, (T.cols.getD i ("", ColData.nums [])).2 = ColData.strs vs →
        ((loadCsv (writeCsv T)).cols.getD i ("", ColData.nums [])).2 = ColData.strs vs) ∧
      (∀ vs, (T.cols.getD i ("", ColData.nums [])).2 = ColData.nums vs →
        ∃ ws, ((loadCsv (writeCsv T)).cols.getD i ("", ColData.nums [])).2 =
            ColData.nums ws ∧
          ws.length = vs.length ∧
          ∀ j, (vs.getD j none = none ↔ ws.getD j none = none) ∧
            ∀ a b, vs.getD j none = some a → ws.getD j none = some b →
              |b - a| ≤ 1 / 1000000000) := by
  have hmap := loadCsv_writeCsv T
  have hlen : (loadCsv (writeCsv T)).cols.length = T.cols.length := by
    rw [hmap, List.length_map]
  refine ⟨hlen, ?_⟩
  intro i hi
  have hL : (loadCsv (writeCsv T)).cols.getD i ("", ColData.nums []) =
      ((T.cols.getD i ("", ColData.nums [])).1,
        roundtripCol (T.cols.getD i ("", ColData.nums [])).2) := by
    rw [hmap, List.getD_eq_getElem _ _ (by simpa using hi), List.getElem_map,
      List.getD_eq_getElem _ _ hi]
  refine ⟨by rw [hL], fun vs hvs => ?_, fun vs hvs => ?_⟩
  · rw [hL]
    show roundtripCol (T.cols.getD i ("", ColData.nums [])).2 = ColData.strs vs
    rw [hvs]
    rfl
  · rw [hL]
    show ∃ ws, roundtripCol (T.cols.getD i ("", ColData.nums [])).2 = ColData.nums ws ∧ _
    rw [hvs]
    refine ⟨vs.map (Option.map (fun q => ((round (q * 10 ^ 12) : ℤ) : ℚ) / 10 ^ 12)),
      rfl, by rw [List.length_map], ?_⟩
    intro j
    rw [getD_map_option]
    constructor
    · cases hv : vs.getD j none with
      | none => simp
      | some a => simp
    · intro a b ha hb
      rw [ha] at hb
      have hb2 : b = ((round (a * 10 ^ 12) : ℤ) : ℚ) / 10 ^ 12 := by
        simpa using hb.symm
      have hround : |((round (a * 10 ^ 12) : ℤ) : ℚ) / 10 ^ 12 - a| ≤ 1 / (2 * 10 ^ 12) :=
        roundTo_abs_le 12 a
      rw [hb2]
      calc |((round (a * 10 ^ 12) : ℤ) : ℚ) / 10 ^ 12 - a| ≤ 1 / (2 * 10 ^ 12) := hround
        _ ≤ 1 / 1000000000 := by norm_num

/-- A table with two numeric columns whose first is constant. -/
def tableConstCol : Table :=
  ⟨[("x", .nums [some 1, some 1]), ("y", .nums [some 1, some 2])]⟩

/-- Claim C8, counterexample: on a table with two numeric columns whose
first is constant, the diagonal entry for that column is not 1 within
1e-9: Pearson's r is undefined there (its denominator is zero; the library
displays NaN, the model's zero-denominator convention gives 0). -/
theorem corrMatrix_constant_column_diag_not_one :
    2 ≤ (numericCols tableConstCol).length ∧
    (corrMatrix tableConstCol).2 0 0 = 0 ∧
    ¬ |(corrMatrix tableConstCol).2 0 0 - 1| ≤ 1 / 1000000000 := by
  have hvs : varSum [(1 : ℚ), 1] = 0 := by norm_num [varSum, meanQ]
  have h0 : (corrMatrix tableConstCol).2 0 0 = 0 := by
    show corrCoeff (pairedVals [some 1, some 1] [some 1, some 1]) = 0
    rw [pairedVals_self]
    rw [show somes [some (1 : ℚ), some 1] = [1, 1] from rfl]
    unfold corrCoeff
    have h1 : ([(1 : ℚ), 1].map (fun a => (a, a))).map Prod.fst = [1, 1] := rfl
    have h2 : ([(1 : ℚ), 1].map (fun a => (a, a))).map Prod.snd = [1, 1] := rfl
    rw [h1, h2, hvs]
    norm_num
  refine ⟨by decide, h0, ?_⟩
  rw [h0]
  norm_num
